import Mathlib

/-!
# Verification of the Nexo client-side core logic

Shallow embedding of the two substantive client-side modules of the Nexo
repository:

* the repository-analysis cache (`src/client/src/services/cacheService.ts`):
  a TTL-based, user-scoped cache keyed by normalized repository URL;
* the directory-structure normalizer
  (`src/client/src/pages/RepoAnalysis/RepoAnalysis.tsx`):
  `convertDirectoryStructure` and `countFilesInStructure`.

Modelling conventions:

* JavaScript strings are Lean `String`s; the string operations used by the
  code (`toLowerCase`, the regex `/\/$/` replacement, `String.replace` with
  a string pattern, `endsWith`, `match(/\d+/)` + `parseInt`) are spelled out
  over `String.data` character lists so that everything reduces in the
  kernel.  `toLowerCase` is modelled by per-character `Char.toLower`
  (faithful on the ASCII repertoire the keys use).
* A JS object is modelled as an association list with (by JS semantics)
  unique keys; property update keeps the position of an existing key and
  appends a fresh key, property deletion removes the key.
* `Date.now()` is passed explicitly as an `Int` argument `now` (epoch ms).
* `localStorage` round-trips are outside the model: the store state is
  threaded explicitly, and every function returns the store it persists.
* JS exceptions (the `TypeError` raised by `countFilesInStructure` when a
  `"..."` value is not a string) are modelled with `Except Unit`.
-/

/-! ## String helpers (JS string operations used by the code) -/

/-- JS `toLowerCase`, modelled per character (faithful on ASCII). -/
def strToLower (s : String) : String :=
  ⟨s.data.map Char.toLower⟩

/-- Whether the last character of `s` is `'/'` (JS `/\/$/` match). -/
def endsWithSlash (s : String) : Bool :=
  match s.data.getLast? with
  | some c => c = '/'
  | none => false

/-- JS `s.replace(/\/$/, "")`: remove a single trailing `'/'`. -/
def stripTrailingSlash (s : String) : String :=
  if endsWithSlash s then ⟨s.data.dropLast⟩ else s

/-- JS `s.endsWith("/")` (used on object keys by the tree converter). -/
def keyEndsWithSlash (k : String) : Bool :=
  endsWithSlash k

/-- Core of JS `String.replace` with a *string* pattern: replace only the
first occurrence of `pat`, scanning left to right. -/
def listReplaceFirst (pat repl : List Char) : List Char → List Char
  | [] => if pat.isEmpty then repl else []
  | c :: cs =>
    if pat.isPrefixOf (c :: cs) then repl ++ (c :: cs).drop pat.length
    else c :: listReplaceFirst pat repl cs

/-- JS `s.replace(pat, repl)` with a string pattern: first occurrence only. -/
def replaceFirstStr (s pat repl : String) : String :=
  ⟨listReplaceFirst pat.data repl.data s.data⟩

/-- `pat.data.isPrefixOf s.data`, i.e. JS `s.startsWith(pat)`. -/
def strStartsWith (s pat : String) : Bool :=
  pat.data.isPrefixOf s.data

/-- Drop the first `n` characters of `s`. -/
def strDrop (s : String) (n : Nat) : String :=
  ⟨s.data.drop n⟩

/-! ## Cache service (`cacheService.ts`) -/

/-- `const CACHE_EXPIRATION = 60 * 60 * 1000` (1 hour in ms). -/
def CACHE_EXPIRATION : Int := 60 * 60 * 1000

/-- `normalizeRepoUrl`:
`url.toLowerCase().replace(/\/$/, "").replace("https://github.com/", "")`.
Note that the last step is a *first-occurrence substring* replacement
(JS `String.replace` with a string pattern), not a prefix strip. -/
def normalizeRepoUrl (url : String) : String :=
  replaceFirstStr (stripTrailingSlash (strToLower url)) "https://github.com/" ""

/-- A stored cache entry (`interface CacheEntry`); the analysis payload is
opaque to the cache, so it is a type parameter `α`. -/
structure CacheEntry (α : Type) where
  data : α
  timestamp : Int
  userId : String
deriving DecidableEq, Repr

/-- The persisted store (`interface CacheStore`): a JS object keyed by
normalized repo URL, modelled as an association list with unique keys. -/
abbrev CacheStore (α : Type) : Type := List (String × CacheEntry α)

/-- JS property read `store[k]`. -/
def storeLookup {α : Type} (store : CacheStore α) (k : String) :
    Option (CacheEntry α) :=
  (List.find? (fun p => p.1 = k) store).map Prod.snd

/-- JS property write `store[k] = e`: updates an existing key in place,
appends a fresh key at the end (JS enumeration-order semantics). -/
def storeSet {α : Type} (store : CacheStore α) (k : String) (e : CacheEntry α) :
    CacheStore α :=
  if (List.find? (fun p => p.1 = k) store).isSome then
    store.map (fun p => if p.1 = k then (k, e) else p)
  else
    store ++ [(k, e)]

/-- JS `delete store[k]`. -/
def storeErase {α : Type} (store : CacheStore α) (k : String) : CacheStore α :=
  store.filter (fun p => ¬ p.1 = k)

/-- JS `userId || "anonymous"`: `null` — and also the falsy empty string —
becomes the sentinel `"anonymous"`. -/
def effUserId (userId : Option String) : String :=
  match userId with
  | none => "anonymous"
  | some s => if s = "" then "anonymous" else s

/-- `isCacheValid(entry)`: `Date.now() - entry.timestamp < CACHE_EXPIRATION`,
with `Date.now()` passed explicitly. -/
def isCacheValid {α : Type} (e : CacheEntry α) (now : Int) : Bool :=
  now - e.timestamp < CACHE_EXPIRATION

/-- `getFromCache(repoUrl, userId)`.  Returns the hit (or `none`) together
with the store as persisted after the call (`saveCacheStore` is only invoked
on the lazy-expiry path; on every other path the store is unchanged). -/
def getFromCache {α : Type} (store : CacheStore α) (repoUrl : String)
    (userId : Option String) (now : Int) : Option α × CacheStore α :=
  let normalizedUrl := normalizeRepoUrl repoUrl
  match storeLookup store normalizedUrl with
  | none => (none, store)
  | some entry =>
    if ¬ entry.userId = effUserId userId then
      (none, store)
    else if ¬ isCacheValid entry now then
      (none, storeErase store normalizedUrl)
    else
      (some entry.data, store)

/-- `saveToCache(repoUrl, data, userId)`. -/
def saveToCache {α : Type} (store : CacheStore α) (repoUrl : String) (d : α)
    (userId : Option String) (now : Int) : CacheStore α :=
  storeSet store (normalizeRepoUrl repoUrl)
    { data := d, timestamp := now, userId := effUserId userId }

/-- The `forEach` body of `cleanExpiredCache`: delete the entry under `k`
when it fails `isCacheValid`, counting the deletion.  (The `none` case is
unreachable on stores with unique keys, as JS objects have; JS would fault
on `undefined.timestamp` there, so the skip is never exercised.) -/
def cleanStep {α : Type} (now : Int) (acc : Nat × CacheStore α) (k : String) :
    Nat × CacheStore α :=
  match storeLookup acc.2 k with
  | some e =>
    if ¬ isCacheValid e now then (acc.1 + 1, storeErase acc.2 k) else acc
  | none => acc

/-- `cleanExpiredCache()`: snapshot `Object.keys(store)`, delete every entry
that fails `isCacheValid`, count the deletions, return the count together
with the store as persisted afterwards. -/
def cleanExpiredCache {α : Type} (store : CacheStore α) (now : Int) :
    Nat × CacheStore α :=
  (store.map Prod.fst).foldl (cleanStep now) (0, store)

/-! ## Directory-structure normalizer (`RepoAnalysis.tsx`) -/

mutual

/-- A value of the `DirectoryStructure` mapping: a nested mapping, `null`,
or a string (the TS type `DirectoryStructure | null | string`). -/
inductive JsVal : Type where
  | vnull : JsVal
  | vstr : String → JsVal
  | vobj : JsEntries → JsVal

/-- The entries of a `DirectoryStructure` mapping in enumeration (insertion)
order, as a mutually inductive sequence (rather than a nested `List`) so
that the recursive functions below are structural and kernel-reducible. -/
inductive JsEntries : Type where
  | nil : JsEntries
  | cons : String → JsVal → JsEntries → JsEntries

end

/-- `"folder" | "file"`. -/
inductive ItemType : Type where
  | folder : ItemType
  | file : ItemType
deriving DecidableEq, Repr

/-- `interface FileTreeItem`.  `name` is `none` in the degenerate case where
the code pushes a non-string `"..."` value as the item name (`value as
string` is an unchecked cast); on every well-formed input it is `some`. -/
structure FileTreeItem : Type where
  name : Option String
  type : ItemType
  children : Option (List FileTreeItem)
  fileCount : Option Nat

/-- First maximal run of decimal digits in a character list (`match(/\d+/)`),
returned as the list of digit characters, or `none` when no digit occurs. -/
def firstDigitRunChars : List Char → Option (List Char)
  | [] => none
  | c :: cs =>
    if c.isDigit then some (c :: cs.takeWhile Char.isDigit)
    else firstDigitRunChars cs

/-- `parseInt(ds, 10)` on a run of decimal digits. -/
def digitsToNat (ds : List Char) : Nat :=
  ds.foldl (fun n c => n * 10 + (c.toNat - 48)) 0

/-- `match(/\d+/)` followed by `parseInt(match[0], 10)`, contributing `0`
when no digit run is present (the `if (match)` guard). -/
def firstDigitRun (s : String) : Nat :=
  match firstDigitRunChars s.data with
  | some ds => digitsToNat ds
  | none => 0

/-- `countFilesInStructure(structure)`.  The `"..."` branch performs
`(value as string).match(/\d+/)`, which raises a `TypeError` when the value
is not a string (modelled as `Except.error ()`); a folder key recurses only
into a truthy object value; any non-folder, non-`"..."` key counts as one
file; a folder key with any other value contributes nothing. -/
def countFilesInStructure : JsEntries → Except Unit Nat
  | JsEntries.nil => Except.ok 0
  | JsEntries.cons k v rest =>
    (if k = "..." then
      match v with
      | JsVal.vstr s => Except.ok (firstDigitRun s)
      | _ => Except.error ()
    else if keyEndsWithSlash k then
      match v with
      | JsVal.vobj l => countFilesInStructure l
      | _ => Except.ok 0
    else
      Except.ok 1) >>= fun c =>
    countFilesInStructure rest >>= fun r =>
    Except.ok (c + r)

/-- The comparator passed to `items.sort`: folders before files, otherwise
`a.name.localeCompare(b.name)`.  The locale comparison `lc` is a parameter
(its result is an abstract locale-dependent `Int`); `name` fields are
`some` on every input reaching the comparator in a well-formed run. -/
def itemCmp (lc : String → String → Int) (a b : FileTreeItem) : Int :=
  if a.type = ItemType.folder ∧ ¬ b.type = ItemType.folder then -1
  else if ¬ a.type = ItemType.folder ∧ b.type = ItemType.folder then 1
  else lc (a.name.getD "") (b.name.getD "")

/-- `items.sort((a, b) => ...)`: JS `Array.prototype.sort` is stable
(ES2019) and, for a consistent comparator, produces the unique stable
ordering in which consecutive items satisfy `cmp ≤ 0`; insertion sort is
such a sort. -/
def sortItems (lc : String → String → Int) (items : List FileTreeItem) :
    List FileTreeItem :=
  List.insertionSort (fun a b => itemCmp lc a b ≤ 0) items

/-- The `for (const [key, value] of Object.entries(structure))` loop body of
`convertDirectoryStructure`: one pushed item per entry, in entry order.
Errors raised by the nested `countFilesInStructure` call propagate.  In the
subtree branch the code's recursive call to `convertDirectoryStructure` is
inlined (build the child items, then sort) so that the recursion is
structural; `convertDirectoryStructure` below is by definition exactly that
composition, so the inlined term is definitionally
`convertDirectoryStructure lc l`. -/
def convertEntries (lc : String → String → Int) :
    JsEntries → Except Unit (List FileTreeItem)
  | JsEntries.nil => Except.ok []
  | JsEntries.cons k v rest =>
    (if keyEndsWithSlash k then
      match v with
      | JsVal.vobj l =>
        (convertEntries lc l >>= fun subItems =>
          Except.ok (sortItems lc subItems)) >>= fun children =>
        countFilesInStructure l >>= fun fileCount =>
        Except.ok
          { name := some k, type := ItemType.folder,
            children := if children.length > 0 then some children else none,
            fileCount := some fileCount }
      | _ =>
        Except.ok
          { name := some k, type := ItemType.folder,
            children := none, fileCount := none }
    else if k = "..." then
      Except.ok
        { name := (match v with | JsVal.vstr s => some s | _ => none),
          type := ItemType.file, children := none, fileCount := none }
    else
      Except.ok
        { name := some k, type := ItemType.file,
          children := none, fileCount := none }) >>= fun item =>
    convertEntries lc rest >>= fun restItems =>
    Except.ok (item :: restItems)

/-- `convertDirectoryStructure(structure)`: build one item per entry, then
sort (folders first, then locale order on names). -/
def convertDirectoryStructure (lc : String → String → Int)
    (structure_ : JsEntries) : Except Unit (List FileTreeItem) :=
  convertEntries lc structure_ >>= fun items =>
  Except.ok (sortItems lc items)

/-! ## Spec-side definitions (for refinement claims) -/

/-- Modelled from the spec wording of the key-normalization claim:
"lower-cases the URL, strips one trailing `/`, and strips a literal
`https://github.com/` *prefix* if present" — the prefix is removed only when
the URL (after lower-casing and slash-stripping) starts with it. -/
def normalizeSpecC6 (url : String) : String :=
  let v := stripTrailingSlash (strToLower url)
  if strStartsWith v "https://github.com/" then v.data.drop 19 |> String.mk
  else v

/-- The per-entry contribution of the file-count claim read literally: the
digit run for `"..."`, the recursive count for a folder key with a mapping
value, `0` for a folder key with a `null` value, and `1` for *any other*
key (the final catch-all of the claim's enumeration). -/
def specCountClaim : JsEntries → Nat
  | JsEntries.nil => 0
  | JsEntries.cons k v rest =>
    (if k = "..." then
      (match v with | JsVal.vstr s => firstDigitRun s | _ => 0)
    else if keyEndsWithSlash k then
      (match v with
       | JsVal.vobj l => specCountClaim l
       | JsVal.vnull => 0
       | JsVal.vstr _ => 1)
    else 1) + specCountClaim rest

/-- The amended per-entry contribution: a folder key contributes the
recursive count when its value is a non-null mapping and `0` for *any*
non-mapping value (not only `null`); `1` only for non-folder file keys. -/
def specCountAmended : JsEntries → Nat
  | JsEntries.nil => 0
  | JsEntries.cons k v rest =>
    (if k = "..." then
      (match v with | JsVal.vstr s => firstDigitRun s | _ => 0)
    else if keyEndsWithSlash k then
      (match v with | JsVal.vobj l => specCountAmended l | _ => 0)
    else 1) + specCountAmended rest

/-- Well-formedness of a `DirectoryStructure`: every `"..."` value reachable
through folder-mapping values is a string (the backend contract assumed by
the unchecked `value as string` casts). -/
def wfStructure : JsEntries → Bool
  | JsEntries.nil => true
  | JsEntries.cons k v rest =>
    (if k = "..." then
      (match v with | JsVal.vstr _ => true | _ => false)
    else if keyEndsWithSlash k then
      (match v with | JsVal.vobj l => wfStructure l | _ => true)
    else true) && wfStructure rest

/-- The ordering the sort-invariant claim asserts between two items placed
in this order: never a file strictly before a folder, and equal-typed items
have names non-decreasing under the locale comparison. -/
def SortRel (lc : String → String → Int) (a b : FileTreeItem) : Prop :=
  (a.type = ItemType.file → b.type = ItemType.file) ∧
    (a.type = b.type → lc (a.name.getD "") (b.name.getD "") ≤ 0)

/-- The sort invariant at every level of a converted tree: the list is
pairwise `SortRel`-ordered and the same holds recursively for the children
of every item. -/
inductive TreeSorted (lc : String → String → Int) : List FileTreeItem → Prop
  | mk :
    ∀ items : List FileTreeItem,
      items.Pairwise (SortRel lc) →
      (∀ it ∈ items, ∀ cs : List FileTreeItem,
        it.children = some cs → TreeSorted lc cs) →
      TreeSorted lc items

/-- A concrete locale comparison used to instantiate witnesses: compare by
string length (a total preorder, as `localeCompare` is). -/
def lcLen (a b : String) : Int :=
  if a.data.length < b.data.length then -1
  else if b.data.length < a.data.length then 1
  else 0

/-! ## Store lemmas -/

theorem storeLookup_cons_self {α : Type} (k : String) (e : CacheEntry α)
    (s : CacheStore α) : storeLookup ((k, e) :: s) k = some e := by
  simp [storeLookup]

theorem storeLookup_cons_ne {α : Type} {k k' : String} (e : CacheEntry α)
    (s : CacheStore α) (h : ¬ k = k') :
    storeLookup ((k, e) :: s) k' = storeLookup s k' := by
  simp [storeLookup, List.find?_cons_of_neg, h]

theorem find?_set_map {α : Type} (k : String) (e : CacheEntry α) :
    ∀ s : CacheStore α,
      List.find? (fun p => p.1 = k)
          (s.map (fun p => if p.1 = k then (k, e) else p)) =
        (List.find? (fun p => p.1 = k) s).map (fun _ => (k, e))
  | [] => rfl
  | p :: rest => by
    by_cases hp : p.1 = k
    · simp [hp, List.find?_cons_of_pos]
    · rw [List.map_cons, if_neg hp, List.find?_cons_of_neg _ (by simpa using hp),
        List.find?_cons_of_neg _ (by simpa using hp), find?_set_map k e rest]

theorem storeLookup_storeSet_self {α : Type} (s : CacheStore α) (k : String)
    (e : CacheEntry α) : storeLookup (storeSet s k e) k = some e := by
  unfold storeSet storeLookup
  by_cases h : (List.find? (fun p => p.1 = k) s).isSome
  · rw [if_pos h, find?_set_map]
    obtain ⟨x, hx⟩ := Option.isSome_iff_exists.mp h
    rw [hx]
    rfl
  · rw [if_neg h, List.find?_append,
      Option.not_isSome_iff_eq_none.mp h]
    simp

theorem storeLookup_storeErase_self {α : Type} (s : CacheStore α)
    (k : String) : storeLookup (storeErase s k) k = none := by
  unfold storeErase storeLookup
  rw [List.find?_filter, List.find?_eq_none.mpr]
  · rfl
  · intro x _
    simp

theorem storeErase_cons_ne {α : Type} {k k' : String} (e : CacheEntry α)
    (s : CacheStore α) (h : ¬ k = k') :
    storeErase ((k, e) :: s) k' = (k, e) :: storeErase s k' := by
  simp [storeErase, List.filter_cons, h]

theorem storeErase_of_not_mem {α : Type} {k : String} {s : CacheStore α}
    (h : k ∉ s.map Prod.fst) : storeErase s k = s := by
  unfold storeErase
  apply List.filter_eq_self.mpr
  intro p hp
  simp only [decide_eq_true_eq]
  intro hk
  exact h (hk ▸ List.mem_map_of_mem Prod.fst hp)

/-! ## Cache claims -/

/-- A fresh read of a just-written entry by the same user is a hit. -/
theorem get_save_roundtrip {α : Type} (store : CacheStore α) (url : String)
    (d : α) (u : Option String) (tWrite tRead : Int)
    (hfresh : tRead - tWrite < CACHE_EXPIRATION) :
    (getFromCache (saveToCache store url d u tWrite) url u tRead).1 = some d := by
  simp [getFromCache, saveToCache, storeLookup_storeSet_self, isCacheValid,
    hfresh]

/-- A read of a just-written entry by a different effective user misses. -/
theorem get_save_other_miss {α : Type} (store : CacheStore α) (url : String)
    (d : α) (u1 u2 : Option String) (tWrite tRead : Int)
    (hdiff : ¬ effUserId u1 = effUserId u2) :
    (getFromCache (saveToCache store url d u1 tWrite) url u2 tRead).1 = none := by
  simp [getFromCache, saveToCache, storeLookup_storeSet_self, hdiff]

/-- C1: for every repository URL, payload, and user id, `saveToCache`
followed by `getFromCache` for the same URL and user, before the 1-hour
expiration window elapses, returns exactly the stored payload unchanged. -/
theorem C1_cache_roundtrip {α : Type} (store : CacheStore α) (url : String)
    (d : α) (u : Option String) (tWrite tRead : Int)
    (hfresh : tRead - tWrite < CACHE_EXPIRATION) :
    (getFromCache (saveToCache store url d u tWrite) url u tRead).1 = some d :=
  get_save_roundtrip store url d u tWrite tRead hfresh

theorem C1_witness :
    ((0 : Int) - 0 < CACHE_EXPIRATION) ∧
      (getFromCache
          (saveToCache ([] : CacheStore Nat) "https://github.com/Foo/Bar" 42
            (some "u1") 0)
          "https://github.com/Foo/Bar" (some "u1") 0).1 = some 42 :=
  ⟨by decide,
    C1_cache_roundtrip ([] : CacheStore Nat) "https://github.com/Foo/Bar" 42
      (some "u1") 0 0 (by decide)⟩

/-- C2: for a cache entry owned by the requesting effective user,
`getFromCache` at age `≥` 1 hour is a miss that also evicts the entry from
the persisted store (which therefore no longer contains it), while at age
`<` 1 hour it is a hit returning the stored data. -/
theorem C2_expiry_on_read {α : Type} (store : CacheStore α) (url : String)
    (u : Option String) (now : Int) (e : CacheEntry α)
    (hlook : storeLookup store (normalizeRepoUrl url) = some e)
    (howner : e.userId = effUserId u) :
    (CACHE_EXPIRATION ≤ now - e.timestamp →
      getFromCache store url u now =
        (none, storeErase store (normalizeRepoUrl url)) ∧
      storeLookup (getFromCache store url u now).2 (normalizeRepoUrl url) =
        none) ∧
    (now - e.timestamp < CACHE_EXPIRATION →
      (getFromCache store url u now).1 = some e.data) := by
  constructor
  · intro hexp
    have hmiss : getFromCache store url u now =
        (none, storeErase store (normalizeRepoUrl url)) := by
      simp [getFromCache, hlook, howner, isCacheValid, not_lt.mpr hexp]
    exact ⟨hmiss, by rw [hmiss]; exact storeLookup_storeErase_self store _⟩
  · intro hfresh
    simp [getFromCache, hlook, howner, isCacheValid, hfresh]

theorem C2_witness :
    (storeLookup ([("a/b", ⟨7, 0, "anonymous"⟩)] : CacheStore Nat) (normalizeRepoUrl "a/b") =
        some ⟨7, 0, "anonymous"⟩ ∧
      (⟨7, 0, "anonymous"⟩ : CacheEntry Nat).userId = effUserId none ∧
      CACHE_EXPIRATION ≤ (3600000 : Int) - (0 : Int)) ∧
    getFromCache ([("a/b", ⟨7, 0, "anonymous"⟩)] : CacheStore Nat) "a/b" none 3600000 =
      (none, storeErase ([("a/b", ⟨7, 0, "anonymous"⟩)] : CacheStore Nat) (normalizeRepoUrl "a/b")) :=
  ⟨⟨by decide, by decide, by decide⟩,
    ((C2_expiry_on_read ([("a/b", ⟨7, 0, "anonymous"⟩)] : CacheStore Nat) "a/b"
        none 3600000 ⟨7, 0, "anonymous"⟩ (by decide) (by decide)).1
      (by decide)).1⟩

/-- C5: a stored entry is invisible to any requester whose effective user id
differs from the entry's owner: `saveToCache` as `u1` followed by
`getFromCache` as `u2` (distinct effective ids) is always a miss. -/
theorem C5_cache_isolation {α : Type} (store : CacheStore α) (url : String)
    (d : α) (u1 u2 : Option String) (tWrite tRead : Int)
    (hdiff : ¬ effUserId u1 = effUserId u2) :
    (getFromCache (saveToCache store url d u1 tWrite) url u2 tRead).1 = none :=
  get_save_other_miss store url d u1 u2 tWrite tRead hdiff

theorem C5_witness :
    (¬ effUserId (some "u1") = effUserId (some "u2")) ∧
      (getFromCache
          (saveToCache ([] : CacheStore Nat) "https://github.com/a/b" 5
            (some "u1") 0)
          "https://github.com/a/b" (some "u2") 0).1 = none :=
  ⟨by decide,
    C5_cache_isolation ([] : CacheStore Nat) "https://github.com/a/b" 5
      (some "u1") (some "u2") 0 0 (by decide)⟩

/-- C10: when the stored entry's owner differs from the requesting effective
user, `getFromCache` returns a miss and leaves the persisted store
completely unchanged — for every `now`, in particular when the entry is
already expired: the ownership check precedes the expiry check, so
cross-user reads never trigger the lazy eviction. -/
theorem C10_cross_user_frame {α : Type} (store : CacheStore α) (url : String)
    (u : Option String) (now : Int) (e : CacheEntry α)
    (hlook : storeLookup store (normalizeRepoUrl url) = some e)
    (hother : ¬ e.userId = effUserId u) :
    getFromCache store url u now = (none, store) := by
  simp [getFromCache, hlook, hother]

theorem C10_witness :
    (storeLookup ([("a/b", ⟨7, 0, "alice"⟩)] : CacheStore Nat) (normalizeRepoUrl "a/b") =
        some ⟨7, 0, "alice"⟩ ∧
      ¬ (⟨7, 0, "alice"⟩ : CacheEntry Nat).userId = effUserId none ∧
      ¬ isCacheValid (⟨7, 0, "alice"⟩ : CacheEntry Nat) 99999999999 = true) ∧
    getFromCache ([("a/b", ⟨7, 0, "alice"⟩)] : CacheStore Nat) "a/b" none
        99999999999 =
      (none, ([("a/b", ⟨7, 0, "alice"⟩)] : CacheStore Nat)) :=
  ⟨⟨by decide, by decide, by decide⟩,
    C10_cross_user_frame ([("a/b", ⟨7, 0, "alice"⟩)] : CacheStore Nat) "a/b"
      none 99999999999 ⟨7, 0, "alice"⟩ (by decide) (by decide)⟩

/-- C7 counterexample: the claim quantifies over *raw* user ids `u1 ≠ u2`,
but distinct raw ids can share one effective id — here `u1 = "anonymous"`
and `u2 = null` both become `"anonymous"`, so after `put(url, D1, u1)` then
`put(url, D2, u2)` the read `get(url, u1)` is a *hit* returning `D2`, not
the miss the claim demands. -/
theorem C7_overwrite_cex :
    (getFromCache
        (saveToCache
          (saveToCache ([] : CacheStore Nat) "a/b" 1 (some "anonymous") 0)
          "a/b" 2 none 0)
        "a/b" (some "anonymous") 0).1 = some 2 := by decide

/-- C7 amended: `saveToCache` unconditionally overwrites the entry for the
normalized key regardless of the owner of the prior entry; for users with
*distinct effective ids*, after `put(url, D1, u1)` then `put(url, D2, u2)`,
`get(url, u2)` returns `D2` and `get(url, u1)` returns a miss. -/
theorem C7_overwrite_amended {α : Type} (store : CacheStore α) (url : String)
    (d1 d2 : α) (u1 u2 : Option String) (now : Int)
    (hdiff : ¬ effUserId u1 = effUserId u2) :
    (getFromCache
        (saveToCache (saveToCache store url d1 u1 now) url d2 u2 now)
        url u2 now).1 = some d2 ∧
    (getFromCache
        (saveToCache (saveToCache store url d1 u1 now) url d2 u2 now)
        url u1 now).1 = none := by
  constructor
  · exact get_save_roundtrip _ url d2 u2 now now
      (by simp [CACHE_EXPIRATION])
  · exact get_save_other_miss (saveToCache store url d1 u1 now) url d2 u2
      u1 now now (fun h => hdiff h.symm)

theorem C7_witness :
    (¬ effUserId (some "u1") = effUserId (some "u2")) ∧
      (getFromCache
          (saveToCache
            (saveToCache ([] : CacheStore Nat) "a/b" 1 (some "u1") 0)
            "a/b" 2 (some "u2") 0)
          "a/b" (some "u2") 0).1 = some 2 ∧
      (getFromCache
          (saveToCache
            (saveToCache ([] : CacheStore Nat) "a/b" 1 (some "u1") 0)
            "a/b" 2 (some "u2") 0)
          "a/b" (some "u1") 0).1 = none :=
  ⟨by decide,
    C7_overwrite_amended ([] : CacheStore Nat) "a/b" 1 2 (some "u1")
      (some "u2") 0 (by decide)⟩

/-- A key not named in the remaining iteration keys is untouched by the
`cleanExpiredCache` loop: its entry rides along at the head of the store. -/
theorem cleanFold_skip {α : Type} (now : Int) (k : String) (e : CacheEntry α) :
    ∀ (keys : List String), k ∉ keys → ∀ (n : Nat) (s : CacheStore α),
      keys.foldl (cleanStep now) (n, (k, e) :: s) =
        ((keys.foldl (cleanStep now) (n, s)).1,
          (k, e) :: (keys.foldl (cleanStep now) (n, s)).2)
  | [], _, n, s => rfl
  | k' :: keys', hk, n, s => by
    have hne : ¬ k = k' := fun h => hk (by simp [h])
    have hk' : k ∉ keys' := fun h => hk (List.mem_cons_of_mem _ h)
    rw [List.foldl_cons, List.foldl_cons]
    have hstep : cleanStep now (n, (k, e) :: s) k' =
        ((cleanStep now (n, s) k').1, (k, e) :: (cleanStep now (n, s) k').2) := by
      unfold cleanStep
      rw [storeLookup_cons_ne e s hne]
      cases h : storeLookup s k' with
      | none => rfl
      | some e' =>
        by_cases hv : isCacheValid e' now
        · simp [hv]
        · simp [hv, storeErase_cons_ne e s hne]
    rw [hstep]
    cases hc : cleanStep now (n, s) k' with
    | mk c1 c2 => simpa [hc] using cleanFold_skip now k e keys' hk' c1 c2

/-- The `cleanExpiredCache` fold over a unique-keyed store partitions it:
it keeps exactly the valid entries and counts exactly the invalid ones. -/
theorem cleanFold_spec {α : Type} (now : Int) :
    ∀ (s : CacheStore α) (n : Nat), (s.map Prod.fst).Nodup →
      (s.map Prod.fst).foldl (cleanStep now) (n, s) =
        (n + (s.filter (fun p => ¬ isCacheValid p.2 now)).length,
          s.filter (fun p => isCacheValid p.2 now))
  | [], n, _ => by simp
  | (k, e) :: rest, n, hnd => by
    have hnd' : (k :: rest.map Prod.fst).Nodup := by simpa using hnd
    have hk : k ∉ rest.map Prod.fst := (List.nodup_cons.mp hnd').1
    have hrest : (rest.map Prod.fst).Nodup := (List.nodup_cons.mp hnd').2
    have herase : storeErase ((k, e) :: rest) k = rest := by
      have h1 : storeErase ((k, e) :: rest) k = storeErase rest k := by
        simp [storeErase, List.filter_cons]
      rw [h1, storeErase_of_not_mem hk]
    rw [List.map_cons, List.foldl_cons]
    by_cases hv : isCacheValid e now
    · have hstep : cleanStep now (n, (k, e) :: rest) k = (n, (k, e) :: rest) := by
        unfold cleanStep
        rw [storeLookup_cons_self]
        simp [hv]
      rw [hstep, cleanFold_skip now k e _ hk n rest,
        cleanFold_spec now rest n hrest]
      simp [List.filter_cons, hv]
    · have hstep : cleanStep now (n, (k, e) :: rest) k = (n + 1, rest) := by
        unfold cleanStep
        rw [storeLookup_cons_self]
        simp [hv, herase]
      rw [hstep, cleanFold_spec now rest (n + 1) hrest]
      simp [List.filter_cons, hv]
      omega

/-- C8: on a unique-keyed store, `cleanExpiredCache` removes exactly the
entries whose age has reached the 1-hour window — irrespective of their
`userId`, which it never inspects — and returns the number removed; and in
the concrete scenario, an entry written at the same instant is not removed
(`sweepExpired` returns 0) and stays retrievable through `get("a/b", null)`. -/
theorem C8_sweep_expired :
    (∀ (α : Type) (store : CacheStore α) (now : Int),
      (store.map Prod.fst).Nodup →
      cleanExpiredCache store now =
        ((store.filter (fun p => ¬ isCacheValid p.2 now)).length,
          store.filter (fun p => isCacheValid p.2 now))) ∧
    (cleanExpiredCache
        (saveToCache ([] : CacheStore Nat) "https://github.com/a/b" 1 none 0)
        0 =
      (0, saveToCache ([] : CacheStore Nat) "https://github.com/a/b" 1 none 0) ∧
    (getFromCache
        (saveToCache ([] : CacheStore Nat) "https://github.com/a/b" 1 none 0)
        "a/b" none 0).1 = some 1) := by
  refine ⟨fun α store now hnd => ?_, by decide, by decide⟩
  unfold cleanExpiredCache
  rw [cleanFold_spec now store 0 hnd]
  simp

theorem C8_witness :
    ((([("a", (⟨1, 0, "u"⟩ : CacheEntry Nat)),
        ("b", ⟨2, -3600000, "v"⟩)] : CacheStore Nat).map Prod.fst).Nodup) ∧
    cleanExpiredCache
        ([("a", (⟨1, 0, "u"⟩ : CacheEntry Nat)),
          ("b", ⟨2, -3600000, "v"⟩)] : CacheStore Nat) 0 =
      (1, [("a", ⟨1, 0, "u"⟩)]) :=
  ⟨by decide,
    (C8_sweep_expired.1 Nat
        ([("a", (⟨1, 0, "u"⟩ : CacheEntry Nat)),
          ("b", ⟨2, -3600000, "v"⟩)] : CacheStore Nat) 0 (by decide)).trans
      (by decide)⟩

/-- When the pattern is a prefix of the scanned characters, the
first-occurrence replacement replaces exactly that leading occurrence. -/
theorem listReplaceFirst_of_isPrefixOf {pat repl s : List Char}
    (h : pat.isPrefixOf s = true) :
    listReplaceFirst pat repl s = repl ++ s.drop pat.length := by
  cases s with
  | nil =>
    cases pat with
    | nil => simp [listReplaceFirst]
    | cons p ps => simp [List.isPrefixOf] at h
  | cons c cs =>
    unfold listReplaceFirst
    rw [if_pos h]

/-- C6 counterexample: `normalizeRepoUrl` removes the *first occurrence* of
the substring `https://github.com/` anywhere in the URL, not only a prefix:
on `"a/https://github.com/b"` the code yields `"a/b"`, while the claimed
lower-case/strip-slash/strip-prefix pipeline leaves the string unchanged. -/
theorem C6_normalize_cex :
    normalizeRepoUrl "a/https://github.com/b" = "a/b" ∧
    normalizeSpecC6 "a/https://github.com/b" = "a/https://github.com/b" ∧
    ¬ normalizeRepoUrl "a/https://github.com/b" =
        normalizeSpecC6 "a/https://github.com/b" := by
  refine ⟨by decide, by decide, by decide⟩

/-- C6 amended: `normalizeRepoUrl` lower-cases the URL, strips one trailing
`/`, and removes the first occurrence of the literal substring
`https://github.com/` — in particular, whenever that substring is a prefix
of the lower-cased, slash-stripped URL it is stripped from the front; as a
consequence `"https://github.com/Foo/Bar/"` and `"foo/bar"` both normalize
to `"foo/bar"`, so `get` on either string addresses the same entry. -/
theorem C6_normalize_amended :
    (∀ url : String,
      strStartsWith (stripTrailingSlash (strToLower url))
          "https://github.com/" = true →
      normalizeRepoUrl url =
        strDrop (stripTrailingSlash (strToLower url)) 19) ∧
    normalizeRepoUrl "https://github.com/Foo/Bar/" = "foo/bar" ∧
    normalizeRepoUrl "foo/bar" = "foo/bar" := by
  refine ⟨fun url h => ?_, by decide, by decide⟩
  unfold normalizeRepoUrl replaceFirstStr strDrop
  unfold strStartsWith at h
  rw [listReplaceFirst_of_isPrefixOf h]
  rfl

theorem C6_witness :
    strStartsWith (stripTrailingSlash (strToLower "https://github.com/X/Y"))
        "https://github.com/" = true ∧
      normalizeRepoUrl "https://github.com/X/Y" =
        strDrop (stripTrailingSlash (strToLower "https://github.com/X/Y")) 19 :=
  ⟨by decide, C6_normalize_amended.1 "https://github.com/X/Y" (by decide)⟩

/-- Characterization of a successful `Except` bind. -/
theorem bindOk {ε α β : Type} (x : Except ε α) (f : α → Except ε β) (b : β) :
    (x >>= f) = .ok b ↔ ∃ a, x = .ok a ∧ f a = .ok b := by
  cases x <;> simp [Bind.bind, Except.bind]

/-- Whenever `countFilesInStructure` succeeds, its result is the sum of the
amended per-entry contributions. -/
theorem countFiles_eq_amended :
    ∀ (l : JsEntries) (n : Nat),
      countFilesInStructure l = .ok n → n = specCountAmended l
  | JsEntries.nil, n, h => by
    simp only [countFilesInStructure] at h
    cases h
    simp [specCountAmended]
  | JsEntries.cons k v rest, n, h => by
    unfold countFilesInStructure at h
    rw [bindOk] at h
    obtain ⟨c, hc, h⟩ := h
    rw [bindOk] at h
    obtain ⟨r, hr, h⟩ := h
    cases h
    have hrec : r = specCountAmended rest := countFiles_eq_amended rest r hr
    unfold specCountAmended
    by_cases hdots : k = "..."
    · rw [if_pos hdots] at hc ⊢
      cases v with
      | vstr s =>
        cases hc
        rw [hrec]
      | vnull => simp at hc
      | vobj l' => simp at hc
    · rw [if_neg hdots] at hc ⊢
      by_cases hslash : keyEndsWithSlash k = true
      · rw [if_pos hslash] at hc ⊢
        cases v with
        | vobj l' =>
          have := countFiles_eq_amended l' c hc
          rw [hrec, this]
        | vnull =>
          cases hc
          rw [hrec]
        | vstr s =>
          cases hc
          rw [hrec]
      · rw [if_neg hslash] at hc ⊢
        cases hc
        rw [hrec]

/-- C4 counterexample: on `{"a/": "x"}` — a folder key whose value is a
string — the code counts `0` (the folder branch requires an object value
and the file branch requires a key not ending in `/`), while the claim's
case enumeration puts this entry in its final "any other key counts 1"
case. -/
theorem C4_count_cex :
    countFilesInStructure (JsEntries.cons "a/" (JsVal.vstr "x") JsEntries.nil) =
        .ok 0 ∧
    specCountClaim (JsEntries.cons "a/" (JsVal.vstr "x") JsEntries.nil) = 1 :=
  ⟨rfl, rfl⟩

/-- C4 amended: whenever `countFilesInStructure` returns a count, that count
is the sum over the mapping's immediate entries of: the first maximal digit
run in the value string for the key `"..."` (0 when no digit run), the
recursive count for a folder key whose value is a non-null mapping, 0 for a
folder key whose value is anything else (`null` *or any non-mapping value*),
and exactly 1 for any other (non-folder, non-`"..."`) file key. -/
theorem C4_count_amended (l : JsEntries) (n : Nat)
    (h : countFilesInStructure l = .ok n) : n = specCountAmended l :=
  countFiles_eq_amended l n h

theorem C4_witness :
    countFilesInStructure
        (JsEntries.cons "docs/"
          (JsVal.vobj
            (JsEntries.cons "..." (JsVal.vstr "+15 more files") JsEntries.nil))
          (JsEntries.cons "a.ts" JsVal.vnull JsEntries.nil)) = .ok 16 ∧
      (16 : Nat) =
        specCountAmended
          (JsEntries.cons "docs/"
            (JsVal.vobj
              (JsEntries.cons "..." (JsVal.vstr "+15 more files")
                JsEntries.nil))
            (JsEntries.cons "a.ts" JsVal.vnull JsEntries.nil)) :=
  have h : countFilesInStructure
      (JsEntries.cons "docs/"
        (JsVal.vobj
          (JsEntries.cons "..." (JsVal.vstr "+15 more files") JsEntries.nil))
        (JsEntries.cons "a.ts" JsVal.vnull JsEntries.nil)) = .ok 16 := rfl
  ⟨h, C4_count_amended _ 16 h⟩

/-- A string with no digit characters has no digit run. -/
theorem firstDigitRunChars_eq_none :
    ∀ {cs : List Char}, (∀ c ∈ cs, ¬ c.isDigit = true) →
      firstDigitRunChars cs = none
  | [], _ => rfl
  | c :: cs, h => by
    unfold firstDigitRunChars
    rw [if_neg (h c (List.mem_cons_self c cs))]
    exact firstDigitRunChars_eq_none fun c' hc' => h c' (List.mem_cons_of_mem _ hc')

/-- On a well-formed structure, `countFilesInStructure` never raises. -/
theorem wf_countFiles_ok :
    ∀ l : JsEntries, wfStructure l = true →
      ∃ n, countFilesInStructure l = .ok n
  | JsEntries.nil, _ => ⟨0, rfl⟩
  | JsEntries.cons k v rest, hwf => by
    unfold wfStructure at hwf
    rw [Bool.and_eq_true] at hwf
    obtain ⟨hhead, hrest⟩ := hwf
    obtain ⟨r, hr⟩ := wf_countFiles_ok rest hrest
    unfold countFilesInStructure
    by_cases hdots : k = "..."
    · rw [if_pos hdots] at hhead ⊢
      cases v with
      | vstr s =>
        exact ⟨firstDigitRun s + r, by simp [hr, Bind.bind, Except.bind]⟩
      | vnull => simp at hhead
      | vobj l' => simp at hhead
    · rw [if_neg hdots] at hhead ⊢
      by_cases hslash : keyEndsWithSlash k = true
      · rw [if_pos hslash] at hhead ⊢
        cases v with
        | vobj l' =>
          obtain ⟨m, hm⟩ := wf_countFiles_ok l' hhead
          exact ⟨m + r, by simp [hm, hr, Bind.bind, Except.bind]⟩
        | vnull => exact ⟨0 + r, by simp [hr, Bind.bind, Except.bind]⟩
        | vstr s => exact ⟨0 + r, by simp [hr, Bind.bind, Except.bind]⟩
      · rw [if_neg hslash]
        exact ⟨1 + r, by simp [hr, Bind.bind, Except.bind]⟩

/-- A folder key cannot be the literal `"..."`. -/
theorem not_dots_of_slash {k : String} (h : keyEndsWithSlash k = true) :
    ¬ k = "..." := by
  intro hk
  rw [hk] at h
  simp [keyEndsWithSlash, endsWithSlash] at h

/-- On a well-formed structure, the item-building loop never raises. -/
theorem wf_convertEntries_ok (lc : String → String → Int) :
    ∀ l : JsEntries, wfStructure l = true →
      ∃ items, convertEntries lc l = .ok items
  | JsEntries.nil, _ => ⟨[], rfl⟩
  | JsEntries.cons k v rest, hwf => by
    unfold wfStructure at hwf
    rw [Bool.and_eq_true] at hwf
    obtain ⟨hhead, hrest⟩ := hwf
    obtain ⟨restItems, hri⟩ := wf_convertEntries_ok lc rest hrest
    unfold convertEntries
    by_cases hslash : keyEndsWithSlash k = true
    · rw [if_pos hslash]
      rw [if_neg (not_dots_of_slash hslash), if_pos hslash] at hhead
      cases v with
      | vobj l' =>
        obtain ⟨sub, hsub⟩ := wf_convertEntries_ok lc l' hhead
        obtain ⟨m, hm⟩ := wf_countFiles_ok l' hhead
        refine ⟨{ name := some k, type := ItemType.folder,
                  children := if (sortItems lc sub).length > 0
                    then some (sortItems lc sub) else none,
                  fileCount := some m } :: restItems, ?_⟩
        simp [hsub, hm, hri, Bind.bind, Except.bind]
      | vnull =>
        refine ⟨{ name := some k, type := ItemType.folder, children := none,
                  fileCount := none } :: restItems, ?_⟩
        simp [hri, Bind.bind, Except.bind]
      | vstr s =>
        refine ⟨{ name := some k, type := ItemType.folder, children := none,
                  fileCount := none } :: restItems, ?_⟩
        simp [hri, Bind.bind, Except.bind]
    · rw [if_neg hslash]
      by_cases hdots : k = "..."
      · rw [if_pos hdots]
        cases v with
        | vstr s =>
          refine ⟨{ name := some s, type := ItemType.file, children := none,
                    fileCount := none } :: restItems, ?_⟩
          simp [hri, Bind.bind, Except.bind]
        | vnull =>
          refine ⟨{ name := none, type := ItemType.file, children := none,
                    fileCount := none } :: restItems, ?_⟩
          simp [hri, Bind.bind, Except.bind]
        | vobj l' =>
          refine ⟨{ name := none, type := ItemType.file, children := none,
                    fileCount := none } :: restItems, ?_⟩
          simp [hri, Bind.bind, Except.bind]
      · rw [if_neg hdots]
        refine ⟨{ name := some k, type := ItemType.file, children := none,
                  fileCount := none } :: restItems, ?_⟩
        simp [hri, Bind.bind, Except.bind]

/-- On a well-formed structure, `convertDirectoryStructure` never raises. -/
theorem wf_convert_ok (lc : String → String → Int) (l : JsEntries)
    (hwf : wfStructure l = true) :
    ∃ items, convertDirectoryStructure lc l = .ok items := by
  obtain ⟨items, hi⟩ := wf_convertEntries_ok lc l hwf
  exact ⟨sortItems lc items,
    by simp [convertDirectoryStructure, hi, Bind.bind, Except.bind]⟩

/-- C9 counterexample: `countFilesInStructure` is *not* total over arbitrary
`DirectoryStructure` values — on `{"...": null}` the code evaluates
`(value as string).match(/\d+/)` on `null` and raises a `TypeError`
(modelled as `Except.error`), instead of contributing 0. -/
theorem C9_totality_cex :
    countFilesInStructure (JsEntries.cons "..." JsVal.vnull JsEntries.nil) =
      .error () := rfl

/-- C9 amended: over structures whose `"..."` values are strings, both
functions are total: `countFilesInStructure` and `convertDirectoryStructure`
always succeed; moreover a folder key whose value is not a (non-null)
mapping yields a folder item with no children and no file count, and a
`"..."` entry whose string value contains no digits contributes 0 to the
file count. -/
theorem C9_totality_amended (lc : String → String → Int) :
    (∀ l : JsEntries, wfStructure l = true →
      (∃ n, countFilesInStructure l = .ok n) ∧
      (∃ items, convertDirectoryStructure lc l = .ok items)) ∧
    (∀ (k : String) (v : JsVal) (rest : JsEntries),
      keyEndsWithSlash k = true → (∀ l', ¬ v = JsVal.vobj l') →
      convertEntries lc (JsEntries.cons k v rest) =
        (convertEntries lc rest).map
          (fun restItems =>
            ({ name := some k, type := ItemType.folder, children := none,
               fileCount := none } : FileTreeItem) :: restItems)) ∧
    (∀ (s : String) (rest : JsEntries),
      (∀ c ∈ s.data, ¬ c.isDigit = true) →
      countFilesInStructure (JsEntries.cons "..." (JsVal.vstr s) rest) =
        countFilesInStructure rest) := by
  refine ⟨fun l hwf => ⟨wf_countFiles_ok l hwf, wf_convert_ok lc l hwf⟩,
    fun k v rest hslash hnotobj => ?_, fun s rest hnodig => ?_⟩
  · cases hri : convertEntries lc rest with
    | error e =>
      unfold convertEntries
      rw [if_pos hslash]
      cases v with
      | vobj l' => exact absurd rfl (hnotobj l')
      | vnull => simp [hri, Bind.bind, Except.bind, Except.map]
      | vstr s => simp [hri, Bind.bind, Except.bind, Except.map]
    | ok restItems =>
      unfold convertEntries
      rw [if_pos hslash]
      cases v with
      | vobj l' => exact absurd rfl (hnotobj l')
      | vnull => simp [hri, Bind.bind, Except.bind, Except.map]
      | vstr s => simp [hri, Bind.bind, Except.bind, Except.map]
  · have hzero : firstDigitRun s = 0 := by
      unfold firstDigitRun
      rw [firstDigitRunChars_eq_none hnodig]
    cases hr : countFilesInStructure rest with
    | error e =>
      unfold countFilesInStructure
      simp [hr, Bind.bind, Except.bind]
    | ok n =>
      unfold countFilesInStructure
      simp [hr, hzero, Bind.bind, Except.bind]

theorem C9_witness :
    wfStructure
        (JsEntries.cons "docs/"
          (JsVal.vobj
            (JsEntries.cons "..." (JsVal.vstr "+15 more files") JsEntries.nil))
          JsEntries.nil) = true ∧
      (∃ n, countFilesInStructure
          (JsEntries.cons "docs/"
            (JsVal.vobj
              (JsEntries.cons "..." (JsVal.vstr "+15 more files")
                JsEntries.nil))
            JsEntries.nil) = .ok n) ∧
      (∃ items, convertDirectoryStructure lcLen
          (JsEntries.cons "docs/"
            (JsVal.vobj
              (JsEntries.cons "..." (JsVal.vstr "+15 more files")
                JsEntries.nil))
            JsEntries.nil) = .ok items) :=
  have hwf : wfStructure
      (JsEntries.cons "docs/"
        (JsVal.vobj
          (JsEntries.cons "..." (JsVal.vstr "+15 more files") JsEntries.nil))
        JsEntries.nil) = true := rfl
  ⟨hwf, (C9_totality_amended lcLen).1 _ hwf⟩

/-- Two items placed in comparator order satisfy the claimed sort relation:
the comparator never orders a file strictly before a folder, and equal-typed
items are ordered by the locale comparison. -/
theorem sortRel_of_itemCmp {lc : String → String → Int} {a b : FileTreeItem}
    (h : itemCmp lc a b ≤ 0) : SortRel lc a b := by
  unfold itemCmp at h
  refine ⟨?_, ?_⟩
  · intro hfa
    by_contra hbf
    have hbfold : b.type = ItemType.folder := by
      cases hbt : b.type
      · rfl
      · exact absurd hbt hbf
    simp [hfa, hbfold] at h
  · intro heq
    simp [heq] at h
    exact h

/-- Totality of the sort comparator, given totality of the locale
comparison (which, as a total preorder comparison, always orders one way). -/
theorem itemLe_total (lc : String → String → Int)
    (Htot : ∀ a b, lc a b ≤ 0 ∨ lc b a ≤ 0) :
    ∀ a b : FileTreeItem, itemCmp lc a b ≤ 0 ∨ itemCmp lc b a ≤ 0 := by
  intro a b
  unfold itemCmp
  cases ha : a.type <;> cases hb : b.type <;> simp [ha, hb] <;> exact Htot _ _

/-- Transitivity of the sort comparator, given transitivity of the locale
comparison. -/
theorem itemLe_trans (lc : String → String → Int)
    (Htrans : ∀ a b c, lc a b ≤ 0 → lc b c ≤ 0 → lc a c ≤ 0) :
    ∀ a b c : FileTreeItem,
      itemCmp lc a b ≤ 0 → itemCmp lc b c ≤ 0 → itemCmp lc a c ≤ 0 := by
  intro a b c hab hbc
  unfold itemCmp at hab hbc ⊢
  cases ha : a.type <;> cases hb : b.type <;> cases hc : c.type <;>
    simp [ha, hb, hc] at hab hbc ⊢ <;>
    exact Htrans _ _ _ hab hbc

/-- The sorted item list is pairwise ordered by the claimed sort relation. -/
theorem sortItems_pairwise (lc : String → String → Int)
    (Htot : ∀ a b, lc a b ≤ 0 ∨ lc b a ≤ 0)
    (Htrans : ∀ a b c, lc a b ≤ 0 → lc b c ≤ 0 → lc a c ≤ 0)
    (items : List FileTreeItem) :
    (sortItems lc items).Pairwise (SortRel lc) := by
  have htot : IsTotal FileTreeItem (fun a b => itemCmp lc a b ≤ 0) :=
    ⟨itemLe_total lc Htot⟩
  have htrans : IsTrans FileTreeItem (fun a b => itemCmp lc a b ≤ 0) :=
    ⟨fun a b c => itemLe_trans lc Htrans a b c⟩
  have hs := @List.sorted_insertionSort FileTreeItem
    (fun a b => itemCmp lc a b ≤ 0) (fun a b => Int.decLe _ _) htot htrans items
  exact List.Pairwise.imp (fun h => sortRel_of_itemCmp h) hs

/-- `lcLen` is total. -/
theorem lcLen_total : ∀ a b : String, lcLen a b ≤ 0 ∨ lcLen b a ≤ 0 := by
  intro a b
  unfold lcLen
  split_ifs <;> omega

/-- `lcLen` is transitive. -/
theorem lcLen_trans :
    ∀ a b c : String, lcLen a b ≤ 0 → lcLen b c ≤ 0 → lcLen a c ≤ 0 := by
  intro a b c hab hbc
  unfold lcLen at hab hbc ⊢
  split_ifs at hab hbc ⊢ <;> omega

/-- Whenever the item-building loop succeeds, the children of every built
item satisfy the sort invariant at every level. -/
theorem convertEntries_children_treeSorted (lc : String → String → Int)
    (Htot : ∀ a b, lc a b ≤ 0 ∨ lc b a ≤ 0)
    (Htrans : ∀ a b c, lc a b ≤ 0 → lc b c ≤ 0 → lc a c ≤ 0) :
    ∀ (l : JsEntries) (items : List FileTreeItem),
      convertEntries lc l = .ok items →
      ∀ it ∈ items, ∀ cs : List FileTreeItem,
        it.children = some cs → TreeSorted lc cs
  | JsEntries.nil, items, h => by
    simp only [convertEntries] at h
    cases h
    intro it hmem
    exact absurd hmem (List.not_mem_nil it)
  | JsEntries.cons k v rest, items, h => by
    unfold convertEntries at h
    rw [bindOk] at h
    obtain ⟨item, hitem, h⟩ := h
    rw [bindOk] at h
    obtain ⟨restItems, hrest, h⟩ := h
    cases h
    intro it hmem cs hcs
    rcases List.mem_cons.mp hmem with rfl | hmem'
    · by_cases hslash : keyEndsWithSlash k = true
      · rw [if_pos hslash] at hitem
        cases v with
        | vobj l' =>
          rw [bindOk] at hitem
          obtain ⟨children, hch, hitem⟩ := hitem
          rw [bindOk] at hitem
          obtain ⟨fc, hfc, hitem⟩ := hitem
          cases hitem
          rw [bindOk] at hch
          obtain ⟨subItems, hsub, hch⟩ := hch
          cases hch
          split at hcs
          · cases hcs
            refine TreeSorted.mk _ (sortItems_pairwise lc Htot Htrans subItems) ?_
            intro it' hmem' cs' hcs'
            exact convertEntries_children_treeSorted lc Htot Htrans l' subItems
              hsub it' ((List.mem_insertionSort _).mp hmem') cs' hcs'
          · cases hcs
        | vnull =>
          cases hitem
          cases hcs
        | vstr s =>
          cases hitem
          cases hcs
      · rw [if_neg hslash] at hitem
        by_cases hdots : k = "..."
        · rw [if_pos hdots] at hitem
          cases hitem
          cases hcs
        · rw [if_neg hdots] at hitem
          cases hitem
          cases hcs
    · exact convertEntries_children_treeSorted lc Htot Htrans rest restItems
        hrest it hmem' cs hcs

/-- Whenever `convertDirectoryStructure` succeeds, its output satisfies the
sort invariant at every level. -/
theorem convert_ok_treeSorted (lc : String → String → Int)
    (Htot : ∀ a b, lc a b ≤ 0 ∨ lc b a ≤ 0)
    (Htrans : ∀ a b c, lc a b ≤ 0 → lc b c ≤ 0 → lc a c ≤ 0)
    (l : JsEntries) (out : List FileTreeItem)
    (h : convertDirectoryStructure lc l = .ok out) : TreeSorted lc out := by
  unfold convertDirectoryStructure at h
  rw [bindOk] at h
  obtain ⟨items, hitems, hout⟩ := h
  cases hout
  refine TreeSorted.mk _ (sortItems_pairwise lc Htot Htrans items) ?_
  intro it hmem cs hcs
  exact convertEntries_children_treeSorted lc Htot Htrans l items hitems it
    ((List.mem_insertionSort _).mp hmem) cs hcs

/-- C3: for every `DirectoryStructure` input on which
`convertDirectoryStructure` produces an output, at every level of that
output every folder-typed item precedes every file-typed item, and within
each group names are non-decreasing under the locale comparison `lc` —
assuming only that `lc` is a total preorder comparison (the guarantee
`localeCompare` provides). -/
theorem C3_sort_invariant (lc : String → String → Int)
    (Htot : ∀ a b, lc a b ≤ 0 ∨ lc b a ≤ 0)
    (Htrans : ∀ a b c, lc a b ≤ 0 → lc b c ≤ 0 → lc a c ≤ 0)
    (s : JsEntries) (out : List FileTreeItem)
    (h : convertDirectoryStructure lc s = .ok out) : TreeSorted lc out :=
  convert_ok_treeSorted lc Htot Htrans s out h


theorem C3_witness :
    convertDirectoryStructure lcLen
        (JsEntries.cons "src/"
          (JsVal.vobj
            (JsEntries.cons "a.ts" JsVal.vnull
              (JsEntries.cons "b.ts" JsVal.vnull JsEntries.nil)))
          (JsEntries.cons "README.md" JsVal.vnull JsEntries.nil)) =
      .ok
        [{ name := some "src/", type := ItemType.folder,
           children :=
             some
               [{ name := some "a.ts", type := ItemType.file,
                  children := none, fileCount := none },
                { name := some "b.ts", type := ItemType.file,
                  children := none, fileCount := none }],
           fileCount := some 2 },
         { name := some "README.md", type := ItemType.file,
           children := none, fileCount := none }] ∧
    TreeSorted lcLen
      [{ name := some "src/", type := ItemType.folder,
         children :=
           some
             [{ name := some "a.ts", type := ItemType.file,
                children := none, fileCount := none },
              { name := some "b.ts", type := ItemType.file,
                children := none, fileCount := none }],
         fileCount := some 2 },
       { name := some "README.md", type := ItemType.file,
         children := none, fileCount := none }] :=
  have h : convertDirectoryStructure lcLen
      (JsEntries.cons "src/"
        (JsVal.vobj
          (JsEntries.cons "a.ts" JsVal.vnull
            (JsEntries.cons "b.ts" JsVal.vnull JsEntries.nil)))
        (JsEntries.cons "README.md" JsVal.vnull JsEntries.nil)) =
    .ok
      [{ name := some "src/", type := ItemType.folder,
         children :=
           some
             [{ name := some "a.ts", type := ItemType.file,
                children := none, fileCount := none },
              { name := some "b.ts", type := ItemType.file,
                children := none, fileCount := none }],
         fileCount := some 2 },
       { name := some "README.md", type := ItemType.file,
         children := none, fileCount := none }] := rfl
  ⟨h, C3_sort_invariant lcLen lcLen_total lcLen_trans _ _ h⟩
